import Mathlib

/-!
Shallow embedding of `munin_exporter.go` (package main): the protocol-response
processing, catalog build, and scrape-loop logic, together with theorems
checking the natural-language specification against this embedding.
-/

namespace MuninExporter

/-- Split a character list at every character satisfying `p`, accumulating
the current token in reverse; the computational core of Go `strings.Split`
with a one-character separator. -/
def splitChAux (p : Char → Bool) : List Char → List Char → List String
  | [], acc => [String.mk acc.reverse]
  | c :: cs, acc =>
    if p c then String.mk acc.reverse :: splitChAux p cs []
    else splitChAux p cs (c :: acc)

/-- Split a string at every character satisfying `p`; always returns at
least one (possibly empty) token, exactly like Go `strings.Split`. -/
def splitCh (p : Char → Bool) (s : String) : List String :=
  splitChAux p s.data []

/-- Model of Go `strings.Fields`: split around runs of whitespace, dropping
empty tokens. -/
def fields (s : String) : List String :=
  (splitCh (fun c => c.isWhitespace) s).filter (fun t => t ≠ "")

/-- Model of Go `strings.Split(s, ",")`. On the empty string this yields
`[""]`, exactly as in Go. -/
def splitOnComma (s : String) : List String :=
  splitCh (fun c => c = ',') s

/-- Model of Go `strings.Split(s, ".")`. -/
def splitDot (s : String) : List String :=
  splitCh (fun c => c = '.') s

/-- Model of Go `strings.ToLower` on the ASCII range, which covers every
string the exporter lower-cases. -/
def toLowerStr (s : String) : String :=
  String.mk (s.data.map Char.toLower)

/-- Model of Go `strings.Replace(s, "-", "_", -1)`: with one-character `old`
and `new` this is a character map. -/
def dashToUnderscore (s : String) : String :=
  String.mk (s.data.map (fun c => if c = '-' then '_' else c))

/-- Model of Go `strings.Join(parts, sep)`. -/
def joinSep (sep : String) : List String → String
  | [] => ""
  | [x] => x
  | x :: xs => x ++ sep ++ joinSep sep xs

/-- Character-list prefix test, the computational content of Go
`strings.HasPrefix`. -/
def chPfx : List Char → List Char → Bool
  | [], _ => true
  | _ :: _, [] => false
  | a :: as, b :: bs => (a = b) && chPfx as bs

/-- Model of Go `strings.HasPrefix(s, pre)`. -/
def goHasPfx (s pre : String) : Bool :=
  chPfx pre.data s.data

/-- Model of Go `strings.TrimRight(s, "\n")`. -/
def trimNL (s : String) : String :=
  String.mk ((s.data.reverse.dropWhile (fun c => c = '\n')).reverse)

/-- Association-list lookup, modelling Go map indexing `m[k]` (comma-ok form). -/
def alistGet {κ α : Type} [DecidableEq κ] (m : List (κ × α)) (k : κ) : Option α :=
  (m.find? (fun kv => kv.1 = k)).map (fun kv => kv.2)

/-- Association-list update, modelling Go map assignment `m[k] = v`
(overwrite when present, append when absent). -/
def alistPut {κ α : Type} [DecidableEq κ] (m : List (κ × α)) (k : κ) (v : α) : List (κ × α) :=
  if (m.find? (fun kv => kv.1 = k)).isSome then
    m.map (fun kv => if kv.1 = k then (k, v) else kv)
  else
    m ++ [(k, v)]

/-- Go map indexing in value position: a missing string key yields `""`. -/
def goMapGet (m : List (String × String)) (k : String) : String :=
  (alistGet m k).getD ""

/-- Canonical metric name as derived in `registerMetrics` (lines 246-250):
`metricParts := []string{name, metric}`, prepend the global prefix when it is
non-empty, join with `_`, then replace every `-` with `_`. -/
def canonicalNameRegister (pfx plugin field : String) : String :=
  let metricParts : List String :=
    if pfx ≠ "" then pfx :: [plugin, field] else [plugin, field]
  dashToUnderscore (joinSep "_" metricParts)

/-- Canonical metric name as derived in `fetchMetrics` (lines 337-341):
`metricParts := []string{graph, key}`, prepend the global prefix when it is
non-empty, join with `_`, then replace every `-` with `_`. -/
def canonicalNameFetch (pfx graph key : String) : String :=
  let metricParts : List String :=
    if pfx ≠ "" then pfx :: [graph, key] else [graph, key]
  dashToUnderscore (joinSep "_" metricParts)

/-- Plugin filtering of `registerMetrics` (lines 226-237): split the
`muninIgnore` flag on commas; a plugin is skipped when any entry of the
resulting list is a Go prefix of its name. -/
def retainedPlugins (ignoreStr : String) (items : List String) : List String :=
  let ignoreList := splitOnComma ignoreStr
  items.filter (fun name => ! ignoreList.any (fun p => goHasPfx name p))

/-- Kind of an exported metric holder. -/
inductive MetricKind
  | gauge
  | counter
deriving DecidableEq, Repr

/-- Field-kind classification of `registerMetrics` (lines 255-257):
lower-case the declared `type` attribute and compare with `counter` and
`derive`; anything else (including the empty string produced by a missing
attribute) is a gauge. -/
def classifyType (t : String) : MetricKind :=
  let muninType := toLowerStr t
  if muninType = "counter" ∨ muninType = "derive" then .counter else .gauge

/-- Case-insensitive string equality, spec-side notion. -/
def eqCaseInsens (a b : String) : Bool :=
  toLowerStr a = toLowerStr b

/-- Modelled from the spec words (§4.4 step 4): a field whose declared `type`
attribute, compared case-insensitively, is `counter` or `derive` is a counter;
any other value, or an absent attribute, is a gauge. -/
def specClassify (attr : Option String) : MetricKind :=
  match attr with
  | none => .gauge
  | some t => if eqCaseInsens t "counter" || eqCaseInsens t "derive" then .counter else .gauge

/-- Outcome of the `muninConfig` line loop: a parsed config, an error
returned to the caller, or the `log.Fatalf` taken on unexpected EOF. -/
inductive CfgOut
  | okCfg (config : List (String × List (String × String))) (graphConfig : List (String × String))
  | errCfg (e : String)
  | fatalCfg
deriving DecidableEq

/-- Whether a `muninConfig` run produced a parsed config. -/
def CfgOut.isOkC : CfgOut → Bool
  | .okCfg _ _ => true
  | _ => false

/-- Line loop of `muninConfig` (lines 186-216). Each input line carries its
trailing newline, as returned by `ReadString`. Running out of lines models
the `io.EOF` branch (`log.Fatalf`). The end marker is the exact line `".\n"`;
comment lines starting with `#` are skipped; a line with fewer than two
whitespace-separated tokens makes the whole call return an error; a dotted
key updates the per-field map, an undotted key the graph-level map. -/
def muninConfigLines : List String → List (String × List (String × String)) → List (String × String) → CfgOut
  | [], _, _ => .fatalCfg
  | line :: rest, config, graphConfig =>
    if line = ".\n" then .okCfg config graphConfig
    else if line.data.head? = some '#' then muninConfigLines rest config graphConfig
    else
      let parts := fields line
      if parts.length < 2 then .errCfg ("Line unexpected: " ++ line)
      else
        let key := parts.headD ""
        let value := trimNL (joinSep " " parts.tail)
        let keyParts := splitDot key
        if keyParts.length > 1 then
          let sub := (alistGet config (keyParts.headD "")).getD []
          muninConfigLines rest
            (alistPut config (keyParts.headD "") (alistPut sub (keyParts.tail.headD "") value))
            graphConfig
        else
          muninConfigLines rest config (alistPut graphConfig key value)

/-- `muninConfig` applied to a command's response lines, starting from the
empty maps created at lines 177-178. -/
def muninConfig (lines : List String) : CfgOut :=
  muninConfigLines lines [] []

/-- Data of a `prometheus.Desc` as created by `newMuninCounter`. -/
structure DescData where
  descName : String
  help : String
  variableLabels : List String
  constLabels : List (String × String)
deriving DecidableEq

/-- State of a `muninCounter` holder (struct at lines 45-50): descriptor,
stored value and stored label values; Go zero values on creation. -/
structure MuninCounterSt where
  counterDesc : DescData
  value : Rat
  currentLabels : List String
deriving DecidableEq

/-- State of a `prometheus.GaugeVec` as the exporter uses it: options and the
cells addressed by label-value tuples. -/
structure GaugeVecSt where
  help : String
  constLabels : List (String × String)
  variableLabels : List String
  cells : List (List String × Rat)
deriving DecidableEq

/-- Method `muninCounter.UpdateLabels` (lines 65-68): overwrite the stored
value and the stored label values, touching nothing else. -/
def UpdateLabels (c : MuninCounterSt) (currentLabels : List String) (value : Rat) : MuninCounterSt :=
  { c with value := value, currentLabels := currentLabels }

/-- An exported sample as produced by `MustNewConstMetric`. -/
structure ConstMetric where
  desc : DescData
  kind : MetricKind
  value : Rat
  labelValues : List String
deriving DecidableEq

/-- Method `muninCounter.Collect` (lines 56-63): emit one constant metric
with `prometheus.CounterValue`, the stored value and the stored labels. -/
def collect (c : MuninCounterSt) : ConstMetric :=
  { desc := c.counterDesc, kind := .counter, value := c.value, labelValues := c.currentLabels }

/-- The fixed label schema used for every plugin metric (lines 258, 270). -/
def pluginLabels : List String :=
  ["hostname", "graphname", "muninlabel"]

/-- Name of the built-in scrape-duration gauge (lines 289, 355). -/
def fetchTimeName : String :=
  "munin_exporter_fetch_time"

/-- Mutable state accumulated by `registerMetrics`: the `graphs` slice, the
two holder maps, the set of names registered at the prometheus registry, and
the registration errors the code discarded (the return value of
`prometheus.Register` is ignored at lines 261, 274, 288, 299). -/
structure CatState where
  graphs : List String
  gauges : List (String × GaugeVecSt)
  counters : List (String × MuninCounterSt)
  registered : List String
  ignoredErrs : List String
deriving DecidableEq

/-- Model of `prometheus.Register`: a duplicate descriptor name yields an
`AlreadyRegisteredError`, otherwise the name is recorded. -/
def sinkRegister (reg : List String) (name : String) : List String × Option String :=
  if name ∈ reg then (reg, some ("duplicate metrics collector registration attempted: " ++ name))
  else (reg ++ [name], none)

/-- Body of the inner `for metric, config := range configs` loop of
`registerMetrics` (lines 245-275): derive the canonical name and the
description, classify the kind, create the holder, store it in the holder map
and register it at the sink, discarding the sink's error. -/
def registerOneField (pfx name : String) (graphConfig : List (String × String)) (st : CatState) (mf : String × List (String × String)) : CatState :=
  let metric := mf.1
  let cfg := mf.2
  let metricName := canonicalNameRegister pfx name metric
  let desc0 := goMapGet graphConfig "graph_title" ++ ": " ++ goMapGet cfg "label"
  let desc := if goMapGet cfg "info" ≠ "" then desc0 ++ ", " ++ goMapGet cfg "info" else desc0
  let muninType := toLowerStr (goMapGet cfg "type")
  if classifyType (goMapGet cfg "type") = .counter then
    let gv : MuninCounterSt :=
      { counterDesc :=
          { descName := metricName, help := desc, variableLabels := pluginLabels,
            constLabels := [("type", muninType)] },
        value := 0, currentLabels := [] }
    let r := sinkRegister st.registered metricName
    { st with counters := alistPut st.counters metricName gv,
              registered := r.1, ignoredErrs := st.ignoredErrs ++ r.2.toList }
  else
    let gv : GaugeVecSt :=
      { help := desc, constLabels := [("type", "gauge")],
        variableLabels := pluginLabels, cells := [] }
    let r := sinkRegister st.registered metricName
    { st with gauges := alistPut st.gauges metricName gv,
              registered := r.1, ignoredErrs := st.ignoredErrs ++ r.2.toList }

/-- Built-in metric registration at the end of `registerMetrics`
(lines 278-299): the build-info gauge and the scrape-duration gauge, the
latter also stored in the gauge map under `fetchTimeName`. -/
def registerBuiltins (st : CatState) : CatState :=
  let r1 := sinkRegister st.registered "munin_exporter_build_info"
  let st1 := { st with registered := r1.1, ignoredErrs := st.ignoredErrs ++ r1.2.toList }
  let gv : GaugeVecSt :=
    { help := "Time taken to fetch data from all registered munin plugins",
      constLabels := [("type", "gauge")], variableLabels := ["hostname"], cells := [] }
  let r2 := sinkRegister st1.registered fetchTimeName
  { st1 with gauges := alistPut st1.gauges fetchTimeName gv,
             registered := r2.1, ignoredErrs := st1.ignoredErrs ++ r2.2.toList }

/-- Outcome of a `registerMetrics` run. -/
inductive BuildOut
  | okB (st : CatState)
  | errB (e : String)
  | fatalB
deriving DecidableEq

/-- Whether a catalog build completed successfully (returned `nil`). -/
def BuildOut.isOkB : BuildOut → Bool
  | .okB _ => true
  | _ => false

/-- Registration errors generated by the sink and discarded during a
successful build. -/
def BuildOut.errsIgnored : BuildOut → List String
  | .okB st => st.ignoredErrs
  | _ => []

/-- Outer plugin loop of `registerMetrics` (lines 229-277) followed by the
built-in registrations: skip ignored plugins, append retained ones to
`graphs`, parse their config (`cfgOf` scripts each plugin's config response
lines), propagate a config error, and register every parsed field. -/
def buildCatalogLoop (ignoreStr pfx : String) (cfgOf : String → List String) : List String → CatState → BuildOut
  | [], st => .okB (registerBuiltins st)
  | name :: rest, st =>
    if (splitOnComma ignoreStr).any (fun p => goHasPfx name p) then
      buildCatalogLoop ignoreStr pfx cfgOf rest st
    else
      let st1 := { st with graphs := st.graphs ++ [name] }
      match muninConfig (cfgOf name) with
      | .fatalCfg => .fatalB
      | .errCfg e => .errB e
      | .okCfg config graphConfig =>
          buildCatalogLoop ignoreStr pfx cfgOf rest
            (config.foldl (registerOneField pfx name graphConfig) st1)

/-- The initial catalog state (empty maps from `init`, nil `graphs`). -/
def initCatState : CatState :=
  { graphs := [], gauges := [], counters := [], registered := [], ignoredErrs := [] }

/-- `registerMetrics` applied to an already-parsed plugin list `items` and
scripted config responses. -/
def buildCatalog (ignoreStr pfx : String) (items : List String) (cfgOf : String → List String) : BuildOut :=
  buildCatalogLoop ignoreStr pfx cfgOf items initCatState

/-- Holder state shared between the scrape loop and the sink: the two
per-metric holder maps. -/
structure ScrapeState where
  gauges : List (String × GaugeVecSt)
  counters : List (String × MuninCounterSt)
deriving DecidableEq

/-- An update pushed into a holder during a scrape. -/
inductive UpdateEvent
  | gaugeSet (name : String) (labels : List String) (value : Rat)
  | counterUpd (name : String) (labels : List String) (value : Rat)
deriving DecidableEq

/-- Label values carried by an update event. -/
def evtLabels : UpdateEvent → List String
  | .gaugeSet _ ls _ => ls
  | .counterUpd _ ls _ => ls

/-- Model of `GaugeVec.WithLabelValues(labels...).Set(v)`: overwrite the cell
addressed by the label tuple, creating it when absent. -/
def setGaugeCell (gv : GaugeVecSt) (labels : List String) (v : Rat) : GaugeVecSt :=
  { gv with cells := alistPut gv.cells labels v }

/-- Apply a gauge update to a named gauge of the holder map; after the
catalog build the named gauge always exists, so the absent case is inert. -/
def setGauge (st : ScrapeState) (name : String) (labels : List String) (v : Rat) : ScrapeState :=
  match alistGet st.gauges name with
  | some gv => { st with gauges := alistPut st.gauges name (setGaugeCell gv labels v) }
  | none => st

/-- Body of the per-line processing in `fetchMetrics` (lines 326-352),
applied to an already newline-trimmed line `l`. `pf` abstracts
`strconv.ParseFloat(s, 64)` (`none` is a parse error). A line whose token
count is not exactly two is skipped; the key is the first dot-segment of the
first token; a failed value parse is skipped; otherwise the gauge map is
consulted first and, failing that, the counter map. The returned list holds
the update the line caused, if any. -/
def fetchLineStep (pf : String → Option Rat) (pfx host graph : String) (st : ScrapeState) (l : String) : ScrapeState × List UpdateEvent :=
  let parts := fields l
  if parts.length ≠ 2 then (st, [])
  else
    let key := (splitDot (parts.headD "")).headD ""
    let valueString := parts.tail.headD ""
    match pf valueString with
    | none => (st, [])
    | some value =>
      let name := canonicalNameFetch pfx graph key
      match alistGet st.gauges name with
      | some gv =>
          ({ st with gauges := alistPut st.gauges name (setGaugeCell gv [host, graph, key] value) },
           [.gaugeSet name [host, graph, key] value])
      | none =>
          match alistGet st.counters name with
          | some c =>
              ({ st with counters := alistPut st.counters name (UpdateLabels c [host, graph, key] value) },
               [.counterUpd name [host, graph, key] value])
          | none => (st, [])

/-- Inner response loop of `fetchMetrics` (lines 311-353): each raw line is
right-trimmed of newlines; the line `"."` ends the response; running out of
lines models the `io.EOF` branch (`log.Fatalf`), returned as `none`. -/
def runFetchLines (pf : String → Option Rat) (pfx host graph : String) : List String → ScrapeState → Option (ScrapeState × List UpdateEvent)
  | [], _ => none
  | line :: rest, st =>
    let l := trimNL line
    if l = "." then some (st, [])
    else
      let se := fetchLineStep pf pfx host graph st l
      match runFetchLines pf pfx host graph rest se.1 with
      | none => none
      | some r => some (r.1, se.2 ++ r.2)

/-- Outer plugin loop of `fetchMetrics` (lines 305-354): fetch every graph in
order, threading the holder state; `resp` scripts each plugin's fetch
response lines. -/
def runFetchPass (pf : String → Option Rat) (pfx host : String) (resp : String → List String) : List String → ScrapeState → Option (ScrapeState × List UpdateEvent)
  | [], st => some (st, [])
  | g :: gs, st =>
    match runFetchLines pf pfx host g (resp g) st with
    | none => none
    | some r1 =>
      match runFetchPass pf pfx host resp gs r1.1 with
      | none => none
      | some r2 => some (r2.1, r1.2 ++ r2.2)

/-- A whole `fetchMetrics` pass (lines 303-357): run the plugin loop, then
write the elapsed duration `t1 - t0` into the scrape-duration gauge keyed by
the hostname, where `t0` and `t1` are the clock readings taken by
`time.Now()` at entry and by `time.Since(start)` at the end. -/
def fetchMetricsRun (pf : String → Option Rat) (pfx host : String) (graphsL : List String) (resp : String → List String) (st : ScrapeState) (t0 t1 : Rat) : Option (ScrapeState × List UpdateEvent) :=
  match runFetchPass pf pfx host resp graphsL st with
  | none => none
  | some r =>
      some (setGauge r.1 fetchTimeName [host] (t1 - t0),
            r.2 ++ [.gaugeSet fetchTimeName [host] (t1 - t0)])

/-- Recognizer for the scrape-duration update: a gauge write to
`fetchTimeName` whose label tuple is exactly the hostname. -/
def fetchTimeEvtB (host : String) : UpdateEvent → Bool
  | .gaugeSet n ls _ => n = fetchTimeName && ls = [host]
  | .counterUpd _ _ _ => false

/-- Result of one `reader.Peek(1)` in `muninCommand` (line 131): no error, an
`io.EOF`, or any other error (which the code treats with `log.Fatalf`). -/
inductive PeekRes
  | okP
  | eofP
  | failP
deriving DecidableEq

/-- Reconnect loop of `muninCommand` (lines 136-143): try `connect()` until
it succeeds, sleeping a fixed interval after every failed attempt. The script
`cs` lists the outcome of each attempt; `none` means the script never
reaches a successful connect, i.e. the unbounded loop is still running. -/
def reconnectLoop : List Bool → Option (List Bool)
  | [] => none
  | true :: rest => some rest
  | false :: rest => reconnectLoop rest

/-- Observable outcome of `muninCommand` for one originating command:
`success issues reconnects` returns a reader to the caller after `issues`
transmissions of the command and `reconnects` successful reconnects;
`fatalOut` is the `log.Fatalf` on a non-EOF peek error; `hung` means the
scripts ran out while the call was still looping. -/
inductive CmdOut
  | success (issues reconnects : Nat)
  | fatalOut (issues : Nat)
  | hung
deriving DecidableEq

/-- Control flow of `muninCommand` (lines 126-153) for a single command:
send the command (consuming one peek result), and on `io.EOF` close the
connection, run the reconnect loop, and re-issue the same command by the
recursive call at line 145. The error returned to the caller is always
`nil`: no outcome constructor carries an error value. -/
def muninCommandRun : List PeekRes → List Bool → CmdOut
  | [], _ => .hung
  | .okP :: _, _ => .success 1 0
  | .failP :: _, _ => .fatalOut 1
  | .eofP :: ps, cs =>
    match reconnectLoop cs with
    | none => .hung
    | some cs' =>
      match muninCommandRun ps cs' with
      | .success n r => .success (n + 1) (r + 1)
      | .fatalOut n => .fatalOut (n + 1)
      | .hung => .hung

/-- A gauge holder used by concrete instantiations of the scrape theorems. -/
def gvW : GaugeVecSt :=
  { help := "", constLabels := [], variableLabels := [], cells := [] }

/-- A counter holder used by concrete instantiations of the scrape theorems. -/
def cW : MuninCounterSt :=
  { counterDesc := { descName := "", help := "", variableLabels := [], constLabels := [] },
    value := 0, currentLabels := [] }

/-- A holder state whose gauge and counter maps share the key `g_k`. -/
def stBothW : ScrapeState :=
  { gauges := [("g_k", gvW)], counters := [("g_k", cW)] }

/-- A value parser recognizing exactly the token `5`. -/
def pfFiveW : String → Option Rat :=
  fun s => if s = "5" then some 5 else none

/-- The empty holder state. -/
def stEmptyW : ScrapeState :=
  { gauges := [], counters := [] }

/-- The outcome of a concrete empty scrape pass with clock readings 2 and 7,
used to instantiate the scrape-duration theorem. -/
def outW8 : ScrapeState × List UpdateEvent :=
  (fetchMetricsRun pfFiveW "" "h" [] (fun _ => [".\n"]) stEmptyW 2 7).getD (stEmptyW, [])

theorem chPfx_iff (a b : List Char) : chPfx a b = true ↔ a <+: b := by
  induction a generalizing b with
  | nil => simp [chPfx]
  | cons x xs ih =>
    cases b with
    | nil => simp [chPfx]
    | cons y ys => simp [chPfx, List.cons_prefix_cons, ih, and_comm]

theorem chPfx_false_iff (a b : List Char) : chPfx a b = false ↔ ¬ (a <+: b) := by
  rw [← chPfx_iff]
  cases chPfx a b <;> simp

/-- C1 counterexample: with the empty ignore-prefix configuration the comma
split yields the one-element list containing the empty string, the empty
string is a prefix of every plugin name, and therefore every plugin is
filtered out — not none, as the claim states. -/
theorem c1_counterexample :
    retainedPlugins "" ["cpu"] = [] ∧ retainedPlugins "" ["cpu"] ≠ ["cpu"] := by
  decide

/-- C1 amended: the retained plugin set is exactly the set of discovered
plugins of which no entry of the comma-split ignore list is a prefix; since
splitting the empty configuration string yields the one-element list holding
the empty string, the empty configuration filters out every plugin. -/
theorem c1_retained_set (ign : String) (items : List String) (nm : String) :
    (nm ∈ retainedPlugins ign items ↔
      nm ∈ items ∧ ∀ q ∈ splitOnComma ign, ¬ (q.data <+: nm.data)) ∧
    retainedPlugins "" items = [] := by
  constructor
  · simp only [retainedPlugins, List.mem_filter, Bool.not_eq_true', List.any_eq_false,
      goHasPfx, chPfx_false_iff, chPfx_iff]
  · have hsplit : splitOnComma "" = [""] := rfl
    simp only [retainedPlugins, hsplit]
    induction items with
    | nil => rfl
    | cons a t ih =>
      simp [List.filter, goHasPfx, chPfx, ih]

/-- C1 witness: the general statement instantiated at a concrete ignore list
and plugin list. -/
theorem c1_retained_set_witness :
    ("mem" ∈ retainedPlugins "cp,df" ["cpu", "mem", "df_root"] ↔
      "mem" ∈ ["cpu", "mem", "df_root"] ∧
        ∀ q ∈ splitOnComma "cp,df", ¬ (q.data <+: "mem".data)) ∧
    retainedPlugins "" ["cpu", "mem", "df_root"] = [] :=
  c1_retained_set "cp,df" ["cpu", "mem", "df_root"] "mem"

/-- C5: the canonical metric name computed during a scrape (`fetchMetrics`,
lines 337-341) for a (prefix, plugin, field) triple equals the one computed
during catalog build (`registerMetrics`, lines 245-250): both join the
optional non-empty global prefix, the plugin name and the field name with
`_` and then replace every `-` with `_`, so the two derivations are the same
function. -/
theorem c5_canonical_name_same (pfx plugin field : String) :
    canonicalNameRegister pfx plugin field = canonicalNameFetch pfx plugin field :=
  rfl

/-- C6: a field is classified as a counter iff its declared `type` attribute,
compared case-insensitively, equals `counter` or `derive`; any other value or
an absent attribute (read from the Go map as the empty string) classifies it
as a gauge: the code-side classifier agrees with the spec-side one on every
attribute value. -/
theorem c6_counter_classification (attr : Option String) :
    classifyType (attr.getD "") = specClassify attr := by
  cases attr with
  | none => decide
  | some t =>
    have hc : toLowerStr "counter" = "counter" := by decide
    have hd : toLowerStr "derive" = "derive" := by decide
    simp [classifyType, specClassify, eqCaseInsens, hc, hd]

/-- C9: updating a counter holder replaces the stored value and the stored
label set with the new pair and leaves the descriptor untouched; the kind of
the sample the holder emits is the counter kind both before and after the
update, i.e. fixed at creation. -/
theorem c9_counter_update_frame (c : MuninCounterSt) (ls : List String) (v : Rat) :
    (UpdateLabels c ls v).value = v ∧
    (UpdateLabels c ls v).currentLabels = ls ∧
    (UpdateLabels c ls v).counterDesc = c.counterDesc ∧
    (collect (UpdateLabels c ls v)).kind = MetricKind.counter ∧
    (collect c).kind = MetricKind.counter :=
  ⟨rfl, rfl, rfl, rfl, rfl⟩

theorem buildCatalogLoop_ok (ign pfx : String) (cfgOf : String → List String) :
    ∀ (items : List String) (st : CatState),
      (∀ name ∈ items, ((splitOnComma ign).any (fun p => goHasPfx name p)) = false →
        (muninConfig (cfgOf name)).isOkC = true) →
      (buildCatalogLoop ign pfx cfgOf items st).isOkB = true := by
  intro items
  induction items with
  | nil => intro st _; rfl
  | cons name rest ih =>
    intro st h
    by_cases hskip : ((splitOnComma ign).any (fun p => goHasPfx name p)) = true
    · simp only [buildCatalogLoop, hskip, if_true]
      exact ih st (fun n hn => h n (List.mem_cons_of_mem _ hn))
    · have hskip' : ((splitOnComma ign).any (fun p => goHasPfx name p)) = false := by
        simpa using hskip
      have hok := h name (List.mem_cons_self _ _) hskip'
      cases hcfg : muninConfig (cfgOf name) with
      | okCfg config graphConfig =>
        simp only [buildCatalogLoop, hskip', Bool.false_eq_true, if_false, hcfg]
        exact ih _ (fun n hn => h n (List.mem_cons_of_mem _ hn))
      | errCfg e =>
        rw [hcfg] at hok
        simp [CfgOut.isOkC] at hok
      | fatalCfg =>
        rw [hcfg] at hok
        simp [CfgOut.isOkC] at hok

/-- C2 counterexample: plugins `a-b` and `a_b` each declare a field `x`, so
both fields derive the canonical name `a_b_x`; the catalog build nevertheless
completes successfully — the sink's duplicate-registration error is generated
and silently discarded (the return value of `prometheus.Register` is never
checked), contradicting the claim that the collision is fatal at startup. -/
theorem c2_counterexample :
    (buildCatalog "zzz" "" ["a-b", "a_b"]
        (fun n => if n = "a-b" then ["x.label foo\n", ".\n"] else ["x.label bar\n", ".\n"])).isOkB
      = true ∧
    (buildCatalog "zzz" "" ["a-b", "a_b"]
        (fun n => if n = "a-b" then ["x.label foo\n", ".\n"] else ["x.label bar\n", ".\n"])).errsIgnored
      ≠ [] ∧
    canonicalNameRegister "" "a-b" "x" = canonicalNameRegister "" "a_b" "x" := by
  decide

/-- C2 amended: a duplicate canonical metric name is not an error surfaced to
the caller and is not fatal: the later holder overwrites the earlier map
entry, the sink's registration error is discarded, and `registerMetrics`
completes successfully whenever every retained plugin's config command
parses. -/
theorem c2_collision_not_fatal (ign pfx : String) (items : List String)
    (cfgOf : String → List String)
    (h : ∀ name ∈ items, ((splitOnComma ign).any (fun p => goHasPfx name p)) = false →
      (muninConfig (cfgOf name)).isOkC = true) :
    (buildCatalog ign pfx items cfgOf).isOkB = true :=
  buildCatalogLoop_ok ign pfx cfgOf items initCatState h

/-- C2 witness: the amended statement instantiated at the two colliding
plugins of the counterexample. -/
theorem c2_collision_not_fatal_witness :
    (buildCatalog "zzz" "" ["a-b", "a_b"]
        (fun n => if n = "a-b" then ["x.label foo\n", ".\n"] else ["x.label bar\n", ".\n"])).isOkB
      = true :=
  c2_collision_not_fatal "zzz" "" ["a-b", "a_b"]
    (fun n => if n = "a-b" then ["x.label foo\n", ".\n"] else ["x.label bar\n", ".\n"])
    (by decide)

/-- C3 counterexample: a config response whose first line has a single token
makes `muninConfig` return an error immediately — the following well-formed
line is never parsed — and the catalog build step fails with that error;
the malformed line is not skipped at line granularity. -/
theorem c3_counterexample :
    muninConfig ["garbage\n", "x.label y\n", ".\n"]
      = CfgOut.errCfg ("Line unexpected: " ++ "garbage\n") ∧
    buildCatalog "zzz" "" ["p"] (fun _ => ["garbage\n", "x.label y\n", ".\n"])
      = BuildOut.errB ("Line unexpected: " ++ "garbage\n") := by
  decide

/-- C3 amended: a config line with fewer than two whitespace-separated tokens
(that is neither the end marker nor a comment) aborts the whole config
command with an error, and that error propagates out of the catalog-build
step: encountering it on a retained plugin makes the build fail. -/
theorem c3_malformed_cfg_aborts :
    (∀ line rest config graphCfg,
      line ≠ ".\n" → line.data.head? ≠ some '#' → (fields line).length < 2 →
      muninConfigLines (line :: rest) config graphCfg
        = CfgOut.errCfg ("Line unexpected: " ++ line)) ∧
    (∀ ign pfx name items cfgOf e,
      ((splitOnComma ign).any (fun p => goHasPfx name p)) = false →
      muninConfig (cfgOf name) = CfgOut.errCfg e →
      buildCatalog ign pfx (name :: items) cfgOf = BuildOut.errB e) := by
  constructor
  · intro line rest config graphCfg h1 h2 h3
    simp [muninConfigLines, h1, h2, h3]
  · intro ign pfx name items cfgOf e hskip hcfg
    simp [buildCatalog, buildCatalogLoop, hskip, hcfg]

/-- C3 witness: the amended statement instantiated at a concrete malformed
line and a concrete one-plugin catalog. -/
theorem c3_malformed_cfg_aborts_witness :
    muninConfigLines ["garbage\n", ".\n"] [] []
      = CfgOut.errCfg ("Line unexpected: " ++ "garbage\n") ∧
    buildCatalog "zzz" "" ["p"] (fun _ => ["garbage\n"])
      = BuildOut.errB ("Line unexpected: " ++ "garbage\n") :=
  ⟨c3_malformed_cfg_aborts.1 "garbage\n" [".\n"] [] [] (by decide) (by decide) (by decide),
   c3_malformed_cfg_aborts.2 "zzz" "" "p" [] (fun _ => ["garbage\n"])
     ("Line unexpected: " ++ "garbage\n") (by decide) (by decide)⟩

theorem muninCommandRun_success_issues :
    ∀ (ps : List PeekRes) (cs : List Bool) (n r : Nat),
      muninCommandRun ps cs = CmdOut.success n r → n = r + 1 := by
  intro ps
  induction ps with
  | nil => intro cs n r h; simp [muninCommandRun] at h
  | cons p ps ih =>
    intro cs n r h
    cases p with
    | okP =>
      simp [muninCommandRun] at h
      omega
    | failP => simp [muninCommandRun] at h
    | eofP =>
      cases hrc : reconnectLoop cs with
      | none => simp [muninCommandRun, hrc] at h
      | some cs' =>
        cases hrun : muninCommandRun ps cs' with
        | success m q =>
          simp [muninCommandRun, hrc, hrun] at h
          have := ih cs' m q hrun
          omega
        | fatalOut m => simp [muninCommandRun, hrc, hrun] at h
        | hung => simp [muninCommandRun, hrc, hrun] at h

theorem muninCommandRun_no_fatal :
    ∀ (ps : List PeekRes) (cs : List Bool), PeekRes.failP ∉ ps →
      ∀ n, muninCommandRun ps cs ≠ CmdOut.fatalOut n := by
  intro ps
  induction ps with
  | nil => intro cs _ n h; simp [muninCommandRun] at h
  | cons p ps ih =>
    intro cs hmem n h
    cases p with
    | okP => simp [muninCommandRun] at h
    | failP => exact hmem (List.mem_cons_self _ _)
    | eofP =>
      have hmem' : PeekRes.failP ∉ ps := fun hx => hmem (List.mem_cons_of_mem _ hx)
      cases hrc : reconnectLoop cs with
      | none => simp [muninCommandRun, hrc] at h
      | some cs' =>
        cases hrun : muninCommandRun ps cs' with
        | success m q => simp [muninCommandRun, hrc, hrun] at h
        | fatalOut m => exact ih cs' hmem' m hrun
        | hung => simp [muninCommandRun, hrc, hrun] at h

/-- C4: an end-of-stream during a command is recovered by the reconnect loop
and one re-issue of the command per successful reconnect, so a call that
returns to its caller issued the command exactly reconnects-plus-one times;
the process is never terminated unless a peek yields a non-EOF error; and
when no connect attempt of the script succeeds, the call is still inside the
unbounded retry loop rather than failed. The model returns no error value to
the caller at all, matching the code, whose only non-`nil`-error exits are
`log.Fatalf` on a non-EOF peek error. -/
theorem c4_eof_recovery (ps : List PeekRes) (cs : List Bool) :
    (∀ n r, muninCommandRun ps cs = CmdOut.success n r → n = r + 1) ∧
    (PeekRes.failP ∉ ps → ∀ n, muninCommandRun ps cs ≠ CmdOut.fatalOut n) ∧
    (reconnectLoop cs = none → muninCommandRun (PeekRes.eofP :: ps) cs = CmdOut.hung) := by
  refine ⟨fun n r h => muninCommandRun_success_issues ps cs n r h,
          fun hmem n => muninCommandRun_no_fatal ps cs hmem n,
          fun hrc => ?_⟩
  simp [muninCommandRun, hrc]

/-- C4 witness: one EOF followed by one failed and one successful connect
attempt ends in success with two issues and one reconnect. -/
theorem c4_eof_recovery_witness :
    muninCommandRun [PeekRes.eofP, PeekRes.okP] [false, true] = CmdOut.success 2 1 ∧
    2 = 1 + 1 :=
  ⟨by decide,
   (c4_eof_recovery [PeekRes.eofP, PeekRes.okP] [false, true]).1 2 1 (by decide)⟩

/-- C7: a fetch line whose token count is not exactly two, or whose value
token fails numeric parsing, changes no holder, emits no update, and leaves
the processing of the remaining lines of the response untouched: the run on
the response with the bad line equals the run on the response without it. -/
theorem c7_bad_fetch_line_skipped (pf : String → Option Rat) (pfx host graph line : String)
    (rest : List String) (st : ScrapeState)
    (hdot : trimNL line ≠ ".")
    (hbad : (fields (trimNL line)).length ≠ 2 ∨
      pf ((fields (trimNL line)).tail.headD "") = none) :
    runFetchLines pf pfx host graph (line :: rest) st
      = runFetchLines pf pfx host graph rest st := by
  have hstep : fetchLineStep pf pfx host graph st (trimNL line) = (st, []) := by
    rcases hbad with h | h
    · simp [fetchLineStep, h]
    · by_cases hl : (fields (trimNL line)).length ≠ 2
      · simp [fetchLineStep, hl]
      · push_neg at hl
        obtain ⟨a, b, hab⟩ := List.length_eq_two.mp hl
        rw [hab] at h
        simp only [List.tail_cons, List.headD_cons] at h
        simp [fetchLineStep, hab, h]
  rw [runFetchLines]
  simp only [hdot, if_false, hstep]
  cases hres : runFetchLines pf pfx host graph rest st <;> simp

/-- C7 witness: a three-token line ahead of the end marker is skipped and the
rest of the response is processed as if the line were absent. -/
theorem c7_bad_fetch_line_skipped_witness :
    runFetchLines (fun _ => none) "" "h" "cpu" ["bad line extra\n", ".\n"]
        { gauges := [], counters := [] }
      = runFetchLines (fun _ => none) "" "h" "cpu" [".\n"]
        { gauges := [], counters := [] } :=
  c7_bad_fetch_line_skipped (fun _ => none) "" "h" "cpu" "bad line extra\n" [".\n"]
    { gauges := [], counters := [] } (by decide) (Or.inl (by decide))

/-- C10: when a fetch line's canonical name is a key of both holder maps, the
gauge lookup is made first and short-circuits the counter lookup: the line
updates the gauge holder and the counter map is left unchanged. -/
theorem c10_gauge_shadows_counter (pf : String → Option Rat)
    (pfx host graph l kTok vTok : String) (x : Rat) (gv : GaugeVecSt)
    (c : MuninCounterSt) (st : ScrapeState)
    (hf : fields l = [kTok, vTok])
    (hpf : pf vTok = some x)
    (hg : alistGet st.gauges (canonicalNameFetch pfx graph ((splitDot kTok).headD "")) = some gv)
    (_hc : alistGet st.counters (canonicalNameFetch pfx graph ((splitDot kTok).headD "")) = some c) :
    (fetchLineStep pf pfx host graph st l).1.counters = st.counters ∧
    (fetchLineStep pf pfx host graph st l).1.gauges
      = alistPut st.gauges (canonicalNameFetch pfx graph ((splitDot kTok).headD ""))
          (setGaugeCell gv [host, graph, (splitDot kTok).headD ""] x) ∧
    (fetchLineStep pf pfx host graph st l).2
      = [UpdateEvent.gaugeSet (canonicalNameFetch pfx graph ((splitDot kTok).headD ""))
          [host, graph, (splitDot kTok).headD ""] x] := by
  simp only [List.headD_eq_head?] at hg ⊢
  simp [fetchLineStep, hf, hpf, hg]

/-- C10 witness: a state whose gauge and counter maps both hold the canonical
name `g_k` sees only its gauge holder updated by the line `k 5`. -/
theorem c10_gauge_shadows_counter_witness :
    (fetchLineStep pfFiveW "" "h" "g" stBothW "k 5").1.counters = stBothW.counters ∧
    (fetchLineStep pfFiveW "" "h" "g" stBothW "k 5").1.gauges
      = alistPut stBothW.gauges (canonicalNameFetch "" "g" ((splitDot "k").headD ""))
          (setGaugeCell gvW ["h", "g", (splitDot "k").headD ""] 5) ∧
    (fetchLineStep pfFiveW "" "h" "g" stBothW "k 5").2
      = [UpdateEvent.gaugeSet (canonicalNameFetch "" "g" ((splitDot "k").headD ""))
          ["h", "g", (splitDot "k").headD ""] 5] :=
  c10_gauge_shadows_counter pfFiveW "" "h" "g" "k 5" "k" "5" 5 gvW cW stBothW
    (by decide) (by decide) (by decide) (by decide)

theorem fetchLineStep_labels (pf : String → Option Rat) (pfx host graph : String)
    (st : ScrapeState) (l : String) :
    ∀ e ∈ (fetchLineStep pf pfx host graph st l).2, (evtLabels e).length = 3 := by
  intro e he
  simp only [fetchLineStep] at he
  split at he
  · simp at he
  · split at he
    · simp at he
    · split at he
      · simp at he
        subst he
        rfl
      · split at he
        · simp at he
          subst he
          rfl
        · simp at he

theorem runFetchLines_labels (pf : String → Option Rat) (pfx host graph : String) :
    ∀ (lines : List String) (st : ScrapeState) (r : ScrapeState × List UpdateEvent),
      runFetchLines pf pfx host graph lines st = some r →
      ∀ e ∈ r.2, (evtLabels e).length = 3 := by
  intro lines
  induction lines with
  | nil =>
    intro st r h
    simp [runFetchLines] at h
  | cons line rest ih =>
    intro st r h e he
    simp only [runFetchLines] at h
    by_cases hd : trimNL line = "."
    · rw [if_pos hd] at h
      simp at h
      subst h
      simp at he
    · rw [if_neg hd] at h
      cases hres : runFetchLines pf pfx host graph rest
          (fetchLineStep pf pfx host graph st (trimNL line)).1 with
      | none => rw [hres] at h; simp at h
      | some r0 =>
        rw [hres] at h
        simp at h
        subst h
        simp at he
        rcases he with h1 | h2
        · exact fetchLineStep_labels pf pfx host graph st (trimNL line) e h1
        · exact ih _ r0 hres e h2

theorem runFetchPass_labels (pf : String → Option Rat) (pfx host : String)
    (resp : String → List String) :
    ∀ (gs : List String) (st : ScrapeState) (r : ScrapeState × List UpdateEvent),
      runFetchPass pf pfx host resp gs st = some r →
      ∀ e ∈ r.2, (evtLabels e).length = 3 := by
  intro gs
  induction gs with
  | nil =>
    intro st r h e he
    simp only [runFetchPass, Option.some.injEq] at h
    subst h
    simp at he
  | cons g rest ih =>
    intro st r h e he
    simp only [runFetchPass] at h
    split at h
    · simp at h
    · rename_i r1 h1
      split at h
      · simp at h
      · rename_i r2 h2
        simp only [Option.some.injEq] at h
        subst h
        simp at he
        rcases he with ha | hb
        · exact runFetchLines_labels pf pfx host g (resp g) st r1 h1 e ha
        · exact ih r1.1 r2 h2 e hb

/-- C8: a scrape pass that completes without a protocol error performs
exactly one scrape-duration gauge update keyed by the hostname, it is the
last update of the pass (after all plugins), and — the clock being monotone,
so that the reading at the end is at least the reading at the start — its
value is non-negative. Per-line updates always carry the three-element label
tuple (hostname, plugin, field), so none of them can be the one-label
duration update even under a name collision. -/
theorem c8_fetch_time_once (pf : String → Option Rat) (pfx host : String)
    (graphsL : List String) (resp : String → List String) (st : ScrapeState)
    (t0 t1 : Rat) (out : ScrapeState × List UpdateEvent)
    (hmono : t0 ≤ t1)
    (hrun : fetchMetricsRun pf pfx host graphsL resp st t0 t1 = some out) :
    (out.2.filter (fetchTimeEvtB host)).length = 1 ∧
    out.2.getLast? = some (UpdateEvent.gaugeSet fetchTimeName [host] (t1 - t0)) ∧
    0 ≤ t1 - t0 := by
  simp only [fetchMetricsRun] at hrun
  cases hpass : runFetchPass pf pfx host resp graphsL st with
  | none => rw [hpass] at hrun; simp at hrun
  | some r =>
    rw [hpass] at hrun
    simp only [Option.some.injEq] at hrun
    subst hrun
    have hnil : r.2.filter (fetchTimeEvtB host) = [] := by
      rw [List.filter_eq_nil_iff]
      intro e he
      have h3 := runFetchPass_labels pf pfx host resp graphsL st r hpass e he
      cases e with
      | gaugeSet n ls v =>
        simp only [fetchTimeEvtB, Bool.and_eq_true, decide_eq_true_eq, not_and]
        intro _ hls
        rw [hls] at h3
        simp [evtLabels] at h3
      | counterUpd n ls v => simp [fetchTimeEvtB]
    refine ⟨?_, ?_, by linarith⟩
    · simp [List.filter_append, hnil, fetchTimeEvtB]
    · simp [List.getLast?_concat]

/-- C8 witness: an empty plugin list with clock readings 2 and 7 produces
the single duration update with value 5 as the last event. -/
theorem c8_fetch_time_once_witness :
    (outW8.2.filter (fetchTimeEvtB "h")).length = 1 ∧
    outW8.2.getLast? = some (UpdateEvent.gaugeSet fetchTimeName ["h"] (7 - 2)) ∧
    (0 : Rat) ≤ 7 - 2 :=
  c8_fetch_time_once pfFiveW "" "h" [] (fun _ => [".\n"]) stEmptyW 2 7 outW8
    (by norm_num) (by rfl)

end MuninExporter
